import Mathlib

/-!
Formal model of the flint bot (src/lib.rs): a chat-triggered compile-execute-respond
pipeline. Messages of the form `?eval` followed by a triple-backtick fenced block are
compiled by an external compiler, run in a wasm sandbox with captured standard output,
and answered with a formatted reply; edits to the original message re-run the pipeline
and edit the existing reply located through a shared original-to-reply table.

External collaborators (the ashfire compiler, the wasmtime execution, the chat
transport) are modelled as oracle functions; everything the repository itself computes
(extraction, formatting, table updates, UTF-8 lossy decoding of captured bytes) is
translated directly from the source.
-/

namespace Flint

/-- The Unicode White_Space code points, as accepted by the Rust
`char::is_whitespace` used by `str::trim_start` in `compile`. -/
def isUnicodeWs (c : Char) : Bool :=
  decide ((0x9 ≤ c.toNat ∧ c.toNat ≤ 0xD) ∨ c.toNat = 0x20 ∨ c.toNat = 0x85 ∨
    c.toNat = 0xA0 ∨ c.toNat = 0x1680 ∨ (0x2000 ≤ c.toNat ∧ c.toNat ≤ 0x200A) ∨
    c.toNat = 0x2028 ∨ c.toNat = 0x2029 ∨ c.toNat = 0x202F ∨ c.toNat = 0x205F ∨
    c.toNat = 0x3000)

/-- Rust `str::strip_prefix` on character lists: remove `pre` from the front,
or fail. -/
def stripPre (pre s : List Char) : Option (List Char) :=
  if s.take pre.length = pre then some (s.drop pre.length) else none

/-- Rust `str::strip_suffix` on character lists: remove `suf` from the back,
or fail. -/
def stripSuf (suf s : List Char) : Option (List Char) :=
  if s.drop (s.length - suf.length) = suf then some (s.take (s.length - suf.length))
  else none

/-- Rust `str::trim_start` (drop leading whitespace). -/
def trimStart (s : List Char) : List Char := s.dropWhile isUnicodeWs

/-- The command word checked by `compile` (`msg.strip_prefix("?eval")`). -/
def evalWord : List Char := "?eval".toList

/-- A triple-backtick fence marker. -/
def fence : List Char := "```".toList

/-- The source extraction performed inline at the top of `compile`
(src/lib.rs lines 137-142):
strip the `?eval` word, trim leading whitespace, strip a leading and a
trailing triple-backtick fence. -/
def extract (msg : List Char) : Option (List Char) :=
  (((stripPre evalWord msg).map trimStart).bind (stripPre fence)).bind (stripSuf fence)

theorem stripPre_eq_some {pre s t : List Char} :
    stripPre pre s = some t ↔ s = pre ++ t := by
  unfold stripPre
  constructor
  · intro h
    split at h
    · rename_i heq
      cases h
      conv_lhs => rw [← List.take_append_drop pre.length s]
      rw [heq]
    · exact absurd h (by simp)
  · rintro rfl
    rw [if_pos (List.take_left pre t), List.drop_left]

theorem stripSuf_eq_some {suf s t : List Char} :
    stripSuf suf s = some t ↔ s = t ++ suf := by
  unfold stripSuf
  constructor
  · intro h
    split at h
    · rename_i heq
      cases h
      conv_lhs => rw [← List.take_append_drop (s.length - suf.length) s]
      rw [heq]
    · exact absurd h (by simp)
  · rintro rfl
    have hlen : (t ++ suf).length - suf.length = t.length := by
      simp [List.length_append]
    rw [hlen, if_pos (List.drop_left t suf), List.take_left]

theorem dropWhile_ws_append {ws : List Char} (hws : ∀ c ∈ ws, isUnicodeWs c = true)
    {b : Char} (hb : isUnicodeWs b = false) (l : List Char) :
    (ws ++ b :: l).dropWhile isUnicodeWs = b :: l := by
  induction ws with
  | nil => simp [List.dropWhile, hb]
  | cons a ws ih =>
      have ha : isUnicodeWs a = true := hws a (by simp)
      simp only [List.cons_append, List.dropWhile, ha]
      exact ih (fun c hc => hws c (by simp [hc]))

theorem backtick_not_ws : isUnicodeWs '`' = false := by decide

/-- C2: source extraction succeeds with interior `i` exactly when the message is
the `?eval` word, followed by (possibly empty) whitespace, followed by a
triple-backtick fence, the interior verbatim, and a closing triple-backtick
fence; in particular it fails when the prefix is absent or a fence marker is
missing or mismatched. -/
theorem extract_characterization (msg i : List Char) :
    extract msg = some i ↔
      ∃ ws : List Char, (∀ c ∈ ws, isUnicodeWs c = true) ∧
        msg = evalWord ++ (ws ++ (fence ++ (i ++ fence))) := by
  constructor
  · intro h
    unfold extract at h
    cases hp : stripPre evalWord msg with
    | none => rw [hp] at h; exact absurd h (by simp)
    | some rest =>
        rw [hp] at h
        replace h : (stripPre fence (trimStart rest)).bind (stripSuf fence) = some i := h
        cases hq : stripPre fence (trimStart rest) with
        | none => rw [hq] at h; exact absurd h (by simp)
        | some u =>
            rw [hq] at h
            replace h : stripSuf fence u = some i := h
            have hmsg : msg = evalWord ++ rest := stripPre_eq_some.mp hp
            have htrim : trimStart rest = fence ++ u := stripPre_eq_some.mp hq
            have hu : u = i ++ fence := stripSuf_eq_some.mp h
            refine ⟨rest.takeWhile isUnicodeWs, fun c hc => List.mem_takeWhile_imp hc, ?_⟩
            rw [hmsg]
            have hsplit : rest = rest.takeWhile isUnicodeWs ++ trimStart rest :=
              (List.takeWhile_append_dropWhile isUnicodeWs rest).symm
            rw [htrim, hu] at hsplit
            exact congrArg (fun l => evalWord ++ l) hsplit
  · rintro ⟨ws, hws, rfl⟩
    unfold extract
    rw [stripPre_eq_some.mpr rfl]
    show (stripPre fence (trimStart (ws ++ (fence ++ (i ++ fence))))).bind
      (stripSuf fence) = some i
    have hf : fence ++ (i ++ fence) = '`' :: ('`' :: ('`' :: (i ++ fence))) := by
      simp [fence]
    have htrim : trimStart (ws ++ (fence ++ (i ++ fence))) = fence ++ (i ++ fence) := by
      rw [hf]
      exact dropWhile_ws_append hws backtick_not_ws _
    rw [htrim, stripPre_eq_some.mpr rfl]
    show stripSuf fence (i ++ fence) = some i
    exact stripSuf_eq_some.mpr rfl

/-! ## The compile-execute pipeline

The external compiler (`ashfire::compile_buffer`, including its reader/writer
marshaling) and the wasm sandbox execution are opaque boundaries; they are
modelled as oracle functions. Error text is the `Display` rendering of the
propagated error. -/

/-- Error text shown to the user. -/
abbrev ErrText := List Char

/-- Oracle for `ashfire::compile_buffer`: attribution name and extracted source
to bytecode, or a compile error. -/
abbrev Compiler := List Char → List Char → Except ErrText (List Nat)

/-- Oracle for the sandbox step `run`: bytecode to captured text, or a
runtime error. -/
abbrev Runner := List Nat → Except ErrText (List Char)

/-- The context message attached to an extraction failure in `compile`. -/
def parseFailMsg : ErrText := "Failed to parse a code block".toList

/-- Result of `compile`, instrumented with how often the external compiler and
the sandbox were invoked. -/
structure PipeTrace where
  result : Except ErrText (List Char)
  compilerCalls : Nat
  runnerCalls : Nat

/-- `compile` of src/lib.rs (lines 136-151), instrumented with invocation
counts: extraction, then `ashfire::compile_buffer`, then `run`, each
short-circuiting on failure. -/
def compileT (compiler : Compiler) (runner : Runner) (msg name : List Char) : PipeTrace :=
  match extract msg with
  | none => ⟨.error parseFailMsg, 0, 0⟩
  | some src =>
    match compiler name src with
    | .error e => ⟨.error e, 1, 0⟩
    | .ok bytecode => ⟨runner bytecode, 1, 1⟩

/-- The value computed by `compile` of src/lib.rs. -/
def compile (compiler : Compiler) (runner : Runner) (msg name : List Char) :
    Except ErrText (List Char) :=
  (compileT compiler runner msg name).result

/-- `compile_otput` of src/lib.rs (lines 129-134): the result formatter. -/
def compile_otput (compiler : Compiler) (runner : Runner) (message name : List Char) :
    List Char :=
  match compile compiler runner message name with
  | .ok ok => "Compilation result:\n```\n".toList ++ ok ++ "\n```".toList
  | .error err => "Compilation error:\n```\n".toList ++ err ++ "\n```".toList

/-! ## Event handlers and the reply correlator -/

/-- Discord message identifier. -/
abbrev MessageId := Nat

/-- The shared original-to-reply map held in `BotData`
(`HashMap<MessageId, MessageId>`). -/
def Table := MessageId → Option MessageId

/-- The empty table the bot starts with. -/
def Table.empty : Table := fun _ => none

/-- `HashMap::insert`: add or overwrite the entry for `k`. -/
def Table.insert (t : Table) (k v : MessageId) : Table :=
  fun q => if q = k then some v else t q

/-- The fields of an incoming `Message` used by the `eval` command. -/
structure MsgIn where
  id : MessageId
  content : List Char
  authorName : List Char

/-- Transport oracle for `msg.reply`: replying to a message with the given
text either yields the identity of the newly sent reply or a transport
error. -/
abbrev SendFn := MessageId → List Char → Except ErrText MessageId

/-- The `eval` command handler (src/lib.rs lines 94-111): format the pipeline
result, reply to the triggering message, and on a successful send record
original to reply in the shared table. Returns the table afterwards, the
successfully sent replies as (replied-to, text) pairs, and the
`CommandResult`. -/
def eval (compiler : Compiler) (runner : Runner) (send : SendFn) (table : Table)
    (msg : MsgIn) : Table × List (MessageId × List Char) × Except ErrText Unit :=
  let output := compile_otput compiler runner msg.content msg.authorName
  match send msg.id output with
  | .error e => (table, [], .error e)
  | .ok replyId => (table.insert msg.id replyId, [(msg.id, output)], .ok ())

/-- The fields of a `MessageUpdateEvent` used by `message_update` and `edit`:
the edited message id, its channel, and the optional new content and author. -/
structure UpdateEv where
  id : MessageId
  channelId : Nat
  content : Option (List Char)
  authorName : Option (List Char)

/-- A request issued to the chat transport to replace the text of an existing
message (`channel_id.edit_message`). -/
structure EditAction where
  channelId : Nat
  target : MessageId
  content : List Char
deriving DecidableEq

/-- The context message attached to a missing-content failure in `edit`. -/
def contentFailMsg : ErrText := "Failed to get the msg content".toList

/-- `edit` of src/lib.rs (lines 113-127): attribution defaults to the empty
string when the update carries no author; a missing content is an error
raised before the transport edit call; otherwise the pipeline output for the
new content is submitted as an in-place edit of message `id`. -/
def edit (compiler : Compiler) (runner : Runner) (ev : UpdateEv) (id : MessageId) :
    Except ErrText EditAction :=
  let name := ev.authorName.getD []
  match ev.content with
  | none => .error contentFailMsg
  | some message => .ok ⟨ev.channelId, id, compile_otput compiler runner message name⟩

/-- The `message_update` event handler (src/lib.rs lines 33-48): look the
edited message up in the shared table; absent an entry do nothing, otherwise
run `edit` (whose failure is only logged). Returns the edit requests issued
to the transport. -/
def message_update (compiler : Compiler) (runner : Runner) (table : Table)
    (ev : UpdateEv) : List EditAction :=
  match table ev.id with
  | none => []
  | some id =>
    match edit compiler runner ev id with
    | .error _ => []
    | .ok a => [a]

/-! ## Concrete instantiations used by witnesses and counterexamples -/

/-- A concrete compiler oracle. -/
def oCompiler : Compiler := fun _ _ => .error "unexpected token".toList

/-- A concrete runner oracle. -/
def oRunner : Runner := fun _ => .ok "hi\n".toList

/-- A concrete transport oracle whose sends succeed with reply id 42. -/
def oSend : SendFn := fun _ _ => .ok 42

/-- A concrete transport oracle whose sends always fail. -/
def oSendFail : SendFn := fun _ _ => .error "transport down".toList

/-- A message whose text carries the command word but no fenced block. -/
def msgNoFence : MsgIn := ⟨5, "?eval no fence here".toList, "alice".toList⟩

/-- Another message without a well-formed fence. -/
def msgNoFence2 : MsgIn := ⟨7, "?eval ``broken".toList, "bob".toList⟩

/-- When extraction fails, the formatter renders the extraction failure
through the error template. -/
theorem compile_otput_extract_fail {msg : List Char} (h : extract msg = none)
    (compiler : Compiler) (runner : Runner) (name : List Char) :
    compile_otput compiler runner msg name =
      "Compilation error:\n```\n".toList ++ parseFailMsg ++ "\n```".toList := by
  simp [compile_otput, compile, compileT, h]

/-- C1 (counterexample): on input `?eval no fence here` the command handler is
not silent: it sends exactly one reply, the error template carrying the
extraction failure text. -/
theorem eval_not_silent_cex :
    (eval oCompiler oRunner oSend Table.empty msgNoFence).2.1 =
      [(5, "Compilation error:\n```\nFailed to parse a code block\n```".toList)] ∧
    (eval oCompiler oRunner oSend Table.empty msgNoFence).2.1 ≠ [] := by
  constructor
  · decide
  · decide

/-- C1 (amended): for every new-message event whose text fails source
extraction, the pipeline is not silent: the handler replies with the error
template carrying the extraction failure text (here under a transport whose
send succeeds). -/
theorem eval_extraction_failure_replies (compiler : Compiler) (runner : Runner)
    (send : SendFn) (table : Table) (msg : MsgIn) (rid : MessageId)
    (hex : extract msg.content = none)
    (hsend : send msg.id
        ("Compilation error:\n```\n".toList ++ parseFailMsg ++ "\n```".toList) = .ok rid) :
    (eval compiler runner send table msg).2.1 =
      [(msg.id, "Compilation error:\n```\n".toList ++ parseFailMsg ++ "\n```".toList)] := by
  simp only [eval, compile_otput_extract_fail hex compiler runner msg.authorName, hsend]

/-- Witness for the amended C1 at a concrete input. -/
theorem eval_extraction_failure_replies_witness :
    (eval oCompiler oRunner oSend Table.empty msgNoFence2).2.1 =
      [(7, "Compilation error:\n```\nFailed to parse a code block\n```".toList)] :=
  eval_extraction_failure_replies oCompiler oRunner oSend Table.empty msgNoFence2 42
    (by decide) rfl

/-- C3: when extraction fails, `compile` returns the extraction failure and
the pipeline short-circuits: neither the external compiler nor the sandbox is
invoked. -/
theorem compile_short_circuit (msg name : List Char) (h : extract msg = none)
    (compiler : Compiler) (runner : Runner) :
    compileT compiler runner msg name = ⟨.error parseFailMsg, 0, 0⟩ := by
  simp [compileT, h]

/-- Witness for C3 at a concrete input. -/
theorem compile_short_circuit_witness :
    extract "?eval no fence here".toList = none ∧
    compileT oCompiler oRunner "?eval no fence here".toList "alice".toList =
      ⟨.error parseFailMsg, 0, 0⟩ :=
  ⟨by decide, compile_short_circuit _ _ (by decide) oCompiler oRunner⟩

/-- C4: the result formatter is a total function of the pipeline outcome and
maps it to exactly one of the two fixed templates, embedding the success text
or the error text verbatim. -/
theorem compile_otput_two_templates (compiler : Compiler) (runner : Runner)
    (message name : List Char) :
    (∃ T, compile compiler runner message name = .ok T ∧
        compile_otput compiler runner message name =
          "Compilation result:\n```\n".toList ++ T ++ "\n```".toList) ∨
    (∃ E, compile compiler runner message name = .error E ∧
        compile_otput compiler runner message name =
          "Compilation error:\n```\n".toList ++ E ++ "\n```".toList) := by
  unfold compile_otput
  cases h : compile compiler runner message name with
  | ok T => exact .inl ⟨T, rfl, rfl⟩
  | error E => exact .inr ⟨E, rfl, rfl⟩

/-- C5: the reply-correlator entry is inserted only after the reply send
succeeded: a failed send leaves the table unchanged (and nothing sent), and a
successful reply sends exactly one message and adds exactly the one entry
mapping the original message to the fresh reply. -/
theorem eval_record_spec (compiler : Compiler) (runner : Runner) (send : SendFn)
    (table : Table) (msg : MsgIn) :
    (∀ e, send msg.id (compile_otput compiler runner msg.content msg.authorName) =
          .error e →
        eval compiler runner send table msg = (table, [], .error e)) ∧
    (∀ rid, send msg.id (compile_otput compiler runner msg.content msg.authorName) =
          .ok rid →
        (eval compiler runner send table msg).2.1 =
          [(msg.id, compile_otput compiler runner msg.content msg.authorName)] ∧
        ∀ k, (eval compiler runner send table msg).1 k =
          if k = msg.id then some rid else table k) := by
  constructor
  · intro e he
    simp [eval, he]
  · intro rid hr
    refine ⟨by simp [eval, hr], fun k => ?_⟩
    simp [eval, hr, Table.insert]

/-- Witness for C5 at concrete inputs: a failing transport leaves everything
unchanged; a succeeding one records the reply. -/
theorem eval_record_spec_witness :
    eval oCompiler oRunner oSendFail Table.empty msgNoFence =
      (Table.empty, [], .error "transport down".toList) ∧
    (eval oCompiler oRunner oSend Table.empty msgNoFence).1 5 = some 42 :=
  ⟨(eval_record_spec oCompiler oRunner oSendFail Table.empty msgNoFence).1 _ rfl,
   by
    have h := ((eval_record_spec oCompiler oRunner oSend Table.empty msgNoFence).2 42 rfl).2 5
    simpa using h⟩

/-- C6: a message-update event whose edited message is tracked in the
correlator re-runs the pipeline on the new content and issues exactly one
in-place edit of the recorded reply (no new message); an untracked update
issues nothing. -/
theorem message_update_spec (compiler : Compiler) (runner : Runner) (table : Table)
    (ev : UpdateEv) :
    (∀ rid c, table ev.id = some rid → ev.content = some c →
        message_update compiler runner table ev =
          [⟨ev.channelId, rid, compile_otput compiler runner c (ev.authorName.getD [])⟩]) ∧
    (table ev.id = none → message_update compiler runner table ev = []) := by
  constructor
  · intro rid c h1 h2
    simp [message_update, edit, h1, h2]
  · intro h1
    simp [message_update, h1]

/-- A concrete update event carrying new valid-looking content. -/
def evUpd : UpdateEv := ⟨3, 100, some "?eval ```x```".toList, some "carol".toList⟩

/-- A concrete table tracking message 3 with reply 9. -/
def tblW : Table := Table.empty.insert 3 9

/-- Witness for C6 at concrete inputs: tracked update edits the stored reply,
untracked update does nothing. -/
theorem message_update_spec_witness :
    message_update oCompiler oRunner tblW evUpd =
      [⟨100, 9, compile_otput oCompiler oRunner "?eval ```x```".toList "carol".toList⟩] ∧
    message_update oCompiler oRunner Table.empty evUpd = [] :=
  ⟨(message_update_spec oCompiler oRunner tblW evUpd).1 9 _ (by decide) rfl,
   (message_update_spec oCompiler oRunner Table.empty evUpd).2 rfl⟩

/-- C10: a tracked update without content makes `edit` fail with the
missing-content error before any transport edit request is issued (the
existing reply text stays as it is), while a missing author is replaced by
the empty attribution string and causes no failure. -/
theorem edit_defaults_spec (compiler : Compiler) (runner : Runner) (table : Table)
    (ev : UpdateEv) (id : MessageId) :
    (ev.content = none →
        edit compiler runner ev id = .error contentFailMsg ∧
        message_update compiler runner table ev = []) ∧
    (∀ c, ev.authorName = none → ev.content = some c →
        edit compiler runner ev id =
          .ok ⟨ev.channelId, id, compile_otput compiler runner c []⟩) := by
  constructor
  · intro h
    refine ⟨by simp [edit, h], ?_⟩
    unfold message_update
    cases ht : table ev.id with
    | none => rfl
    | some id2 =>
        have he2 : edit compiler runner ev id2 = .error contentFailMsg := by
          simp [edit, h]
        simp [he2]
  · intro c ha hc
    simp [edit, ha, hc]

/-- A concrete tracked update event with no content. -/
def evNoContent : UpdateEv := ⟨4, 200, none, some "dave".toList⟩

/-- A concrete update event with content but no author. -/
def evNoAuthor : UpdateEv := ⟨6, 300, some "?eval ```y```".toList, none⟩

/-- A concrete table tracking message 4 with reply 9. -/
def tblW2 : Table := Table.empty.insert 4 9

/-- Witness for C10 at concrete inputs. -/
theorem edit_defaults_spec_witness :
    (edit oCompiler oRunner evNoContent 9 = .error contentFailMsg ∧
      message_update oCompiler oRunner tblW2 evNoContent = []) ∧
    edit oCompiler oRunner evNoAuthor 9 =
      .ok ⟨300, 9, compile_otput oCompiler oRunner "?eval ```y```".toList []⟩ :=
  ⟨(edit_defaults_spec oCompiler oRunner tblW2 evNoContent 9).1 rfl,
   (edit_defaults_spec oCompiler oRunner tblW2 evNoAuthor 9).2 _ rfl rfl⟩

/-- Witness for C2 at a concrete input. -/
theorem extract_characterization_witness :
    extract "?eval ```x```".toList = some ['x'] :=
  (extract_characterization ("?eval ```x```".toList) ['x']).mpr ⟨[' '], by decide, by decide⟩

/-! ## The reply correlator under concurrent access

The table lives in an `Arc<RwLock<HashMap<..>>>`; the write guard is held for
the whole `insert` in `eval` and the read guard for the whole `get` in
`message_update`, so each table operation is one atomic step. Concurrency is
modelled as an arbitrary interleaving of the atomic steps of two tasks. -/

/-- An atomic correlator operation: a write from the command path or a read
from the edit path. -/
inductive TOp where
  | record (k v : MessageId)
  | query (k : MessageId)

/-- Execute a schedule of correlator operations; returns the final table and
the values observed by the reads, in schedule order. -/
def runOps : Table → List TOp → Table × List (Option MessageId)
  | t, [] => (t, [])
  | t, .record k v :: ops => runOps (t.insert k v) ops
  | t, .query k :: ops =>
      let r := runOps t ops
      (r.1, t k :: r.2)

/-- `Interleave l r m`: schedule `m` interleaves the two task traces `l` and
`r`, keeping the internal order of each. -/
inductive Interleave : List TOp → List TOp → List TOp → Prop where
  | nil : Interleave [] [] []
  | left {a l r m} : Interleave l r m → Interleave (a :: l) r (a :: m)
  | right {a l r m} : Interleave l r m → Interleave l (a :: r) (a :: m)

theorem interleave_nil_left : ∀ {r m : List TOp}, Interleave [] r m → m = r := by
  intro r
  induction r with
  | nil =>
      intro m h
      cases h
      rfl
  | cons a r ih =>
      intro m h
      cases h with
      | right h2 => rw [ih h2]

theorem interleave_nil_right : ∀ {l m : List TOp}, Interleave l [] m → m = l := by
  intro l
  induction l with
  | nil =>
      intro m h
      cases h
      rfl
  | cons a l ih =>
      intro m h
      cases h with
      | left h2 => rw [ih h2]

theorem interleave_single {a b : TOp} {m : List TOp} (h : Interleave [a] [b] m) :
    m = [a, b] ∨ m = [b, a] := by
  cases h with
  | left h2 => exact .inl (by rw [interleave_nil_left h2])
  | right h2 => exact .inr (by rw [interleave_nil_right h2])

/-- C8: with each table operation atomic (the RwLock guard spans it), every
interleaving of two records with distinct keys loses neither entry, and every
interleaving of a record and a lookup on the same key has the lookup observe
either the old value or the fully written new value, nothing else. -/
theorem correlator_interleavings (t : Table) (k1 v1 k2 v2 : MessageId)
    (s1 s2 : List TOp) :
    (k1 ≠ k2 → Interleave [.record k1 v1] [.record k2 v2] s1 →
        (runOps t s1).1 k1 = some v1 ∧ (runOps t s1).1 k2 = some v2) ∧
    (Interleave [.record k1 v1] [.query k1] s2 →
        (runOps t s2).2 = [t k1] ∨ (runOps t s2).2 = [some v1]) := by
  constructor
  · intro hne h
    rcases interleave_single h with rfl | rfl
    · constructor <;> simp [runOps, Table.insert, hne, Ne.symm hne]
    · constructor <;> simp [runOps, Table.insert, hne, Ne.symm hne]
  · intro h
    rcases interleave_single h with rfl | rfl
    · right
      simp [runOps, Table.insert]
    · left
      simp [runOps]

/-- Witness for C8 at concrete schedules. -/
theorem correlator_interleavings_witness :
    ((runOps Table.empty [.record 1 10, .record 2 20]).1 1 = some 10 ∧
      (runOps Table.empty [.record 1 10, .record 2 20]).1 2 = some 20) ∧
    ((runOps Table.empty [.query 1, .record 1 10]).2 = [Table.empty 1] ∨
      (runOps Table.empty [.query 1, .record 1 10]).2 = [some 10]) :=
  have h := correlator_interleavings Table.empty 1 10 2 20
    [.record 1 10, .record 2 20] [.query 1, .record 1 10]
  ⟨h.1 (by decide) (.left (.right .nil)), h.2 (.right (.left .nil))⟩

/-! ## The sandbox runner and lossy UTF-8 decoding

`run` (src/lib.rs lines 153-181) builds the engine, the linker, the wasi
context with an in-memory pipe as the guest standard output, instantiates the
module and calls its entry point; those external wasmtime steps, each of which
can fail, are bundled into one oracle producing either a runtime error or the
bytes captured by the pipe. The host-side computation that remains is
`String::from_utf8_lossy` on the captured bytes, which is modelled byte for
byte: maximal valid UTF-8 sequences decode to their scalar value, each
maximal invalid subpart is replaced by U+FFFD, and decoding never fails. -/

/-- The Unicode replacement character U+FFFD. -/
def uFFFD : Char := Char.ofNat 0xFFFD

/-- Lower bound of the first continuation byte of a three-byte sequence
(overlong and surrogate exclusion, as in the Rust UTF-8 validator). -/
def c3lo (b0 : Nat) : Nat := if b0 = 0xE0 then 0xA0 else 0x80

/-- Upper bound of the first continuation byte of a three-byte sequence. -/
def c3hi (b0 : Nat) : Nat := if b0 = 0xED then 0x9F else 0xBF

/-- Lower bound of the first continuation byte of a four-byte sequence. -/
def c4lo (b0 : Nat) : Nat := if b0 = 0xF0 then 0x90 else 0x80

/-- Upper bound of the first continuation byte of a four-byte sequence. -/
def c4hi (b0 : Nat) : Nat := if b0 = 0xF4 then 0x8F else 0xBF

/-- `String::from_utf8_lossy`: decode a byte sequence, substituting U+FFFD
for each maximal invalid subpart, never failing. -/
def utf8Lossy : List Nat → List Char
  | [] => []
  | b0 :: r =>
    if b0 < 0x80 then Char.ofNat b0 :: utf8Lossy r
    else if b0 < 0xC2 then uFFFD :: utf8Lossy r
    else if b0 ≤ 0xDF then
      match r with
      | [] => [uFFFD]
      | b1 :: r2 =>
        if 0x80 ≤ b1 ∧ b1 ≤ 0xBF then
          Char.ofNat ((b0 - 0xC0) * 64 + (b1 - 0x80)) :: utf8Lossy r2
        else uFFFD :: utf8Lossy (b1 :: r2)
    else if b0 ≤ 0xEF then
      match r with
      | [] => [uFFFD]
      | b1 :: r2 =>
        if c3lo b0 ≤ b1 ∧ b1 ≤ c3hi b0 then
          match r2 with
          | [] => [uFFFD]
          | b2 :: r3 =>
            if 0x80 ≤ b2 ∧ b2 ≤ 0xBF then
              Char.ofNat ((b0 - 0xE0) * 4096 + (b1 - 0x80) * 64 + (b2 - 0x80)) ::
                utf8Lossy r3
            else uFFFD :: utf8Lossy (b2 :: r3)
        else uFFFD :: utf8Lossy (b1 :: r2)
    else if b0 ≤ 0xF4 then
      match r with
      | [] => [uFFFD]
      | b1 :: r2 =>
        if c4lo b0 ≤ b1 ∧ b1 ≤ c4hi b0 then
          match r2 with
          | [] => [uFFFD]
          | b2 :: r3 =>
            if 0x80 ≤ b2 ∧ b2 ≤ 0xBF then
              match r3 with
              | [] => [uFFFD]
              | b3 :: r4 =>
                if 0x80 ≤ b3 ∧ b3 ≤ 0xBF then
                  Char.ofNat ((b0 - 0xF0) * 262144 + (b1 - 0x80) * 4096 +
                      (b2 - 0x80) * 64 + (b3 - 0x80)) :: utf8Lossy r4
                else uFFFD :: utf8Lossy (b3 :: r4)
            else uFFFD :: utf8Lossy (b2 :: r3)
        else uFFFD :: utf8Lossy (b1 :: r2)
    else uFFFD :: utf8Lossy r

/-- The UTF-8 encoding of a scalar value, as bytes. -/
def utf8Encode (c : Char) : List Nat :=
  if c.toNat < 0x80 then [c.toNat]
  else if c.toNat < 0x800 then [0xC0 + c.toNat / 64, 0x80 + c.toNat % 64]
  else if c.toNat < 0x10000 then
    [0xE0 + c.toNat / 4096, 0x80 + c.toNat / 64 % 64, 0x80 + c.toNat % 64]
  else
    [0xF0 + c.toNat / 262144, 0x80 + c.toNat / 4096 % 64, 0x80 + c.toNat / 64 % 64,
      0x80 + c.toNat % 64]

/-- The UTF-8 encoding of a text. -/
def utf8EncodeList : List Char → List Nat
  | [] => []
  | c :: cs => utf8Encode c ++ utf8EncodeList cs

/-- Oracle for the wasmtime part of `run`: linker setup, module validation,
instantiation and the entry-point call, yielding the bytes captured on the
guest standard output or a runtime error. -/
abbrev ExecFn := List Nat → Except ErrText (List Nat)

/-- `run` of src/lib.rs (lines 153-181): execute the module and decode the
captured bytes with `String::from_utf8_lossy`. -/
def run (exec : ExecFn) (wat : List Nat) : Except ErrText (List Char) :=
  match exec wat with
  | .error e => .error e
  | .ok bytes => .ok (utf8Lossy bytes)

theorem lossy_step1 (b0 : Nat) (r : List Nat) (h : b0 < 0x80) :
    utf8Lossy (b0 :: r) = Char.ofNat b0 :: utf8Lossy r := by
  conv_lhs => unfold utf8Lossy
  rw [if_pos h]

theorem lossy_step2 (b0 b1 : Nat) (r : List Nat) (h0 : 0xC2 ≤ b0) (h0b : b0 ≤ 0xDF)
    (h1 : 0x80 ≤ b1) (h1b : b1 ≤ 0xBF) :
    utf8Lossy (b0 :: b1 :: r) =
      Char.ofNat ((b0 - 0xC0) * 64 + (b1 - 0x80)) :: utf8Lossy r := by
  conv_lhs => unfold utf8Lossy
  rw [if_neg (by omega), if_neg (by omega), if_pos (by omega)]
  try simp only []
  rw [if_pos (by omega : 0x80 ≤ b1 ∧ b1 ≤ 0xBF)]


theorem lossy_step3 (b0 b1 b2 : Nat) (r : List Nat) (h0 : 0xE0 ≤ b0) (h0b : b0 ≤ 0xEF)
    (h1 : c3lo b0 ≤ b1) (h1b : b1 ≤ c3hi b0) (h2 : 0x80 ≤ b2) (h2b : b2 ≤ 0xBF) :
    utf8Lossy (b0 :: b1 :: b2 :: r) =
      Char.ofNat ((b0 - 0xE0) * 4096 + (b1 - 0x80) * 64 + (b2 - 0x80)) :: utf8Lossy r := by
  conv_lhs => unfold utf8Lossy
  rw [if_neg (by omega), if_neg (by omega), if_neg (by omega), if_pos (by omega)]
  try simp only []
  rw [if_pos ⟨h1, h1b⟩]
  try simp only []
  rw [if_pos (by omega : 0x80 ≤ b2 ∧ b2 ≤ 0xBF)]

theorem lossy_step4 (b0 b1 b2 b3 : Nat) (r : List Nat) (h0 : 0xF0 ≤ b0) (h0b : b0 ≤ 0xF4)
    (h1 : c4lo b0 ≤ b1) (h1b : b1 ≤ c4hi b0) (h2 : 0x80 ≤ b2) (h2b : b2 ≤ 0xBF)
    (h3 : 0x80 ≤ b3) (h3b : b3 ≤ 0xBF) :
    utf8Lossy (b0 :: b1 :: b2 :: b3 :: r) =
      Char.ofNat ((b0 - 0xF0) * 262144 + (b1 - 0x80) * 4096 + (b2 - 0x80) * 64 +
        (b3 - 0x80)) :: utf8Lossy r := by
  conv_lhs => unfold utf8Lossy
  rw [if_neg (by omega), if_neg (by omega), if_neg (by omega), if_neg (by omega),
    if_pos (by omega)]
  try simp only []
  rw [if_pos ⟨h1, h1b⟩]
  try simp only []
  rw [if_pos (by omega : 0x80 ≤ b2 ∧ b2 ≤ 0xBF)]
  try simp only []
  rw [if_pos (by omega : 0x80 ≤ b3 ∧ b3 ≤ 0xBF)]

theorem lossy_stepBad (b0 : Nat) (r : List Nat) (h : 0xF5 ≤ b0) :
    utf8Lossy (b0 :: r) = uFFFD :: utf8Lossy r := by
  conv_lhs => unfold utf8Lossy
  rw [if_neg (by omega), if_neg (by omega), if_neg (by omega), if_neg (by omega),
    if_neg (by omega)]

theorem utf8Lossy_encode_cons (c : Char) (rest : List Nat) :
    utf8Lossy (utf8Encode c ++ rest) = c :: utf8Lossy rest := by
  have hval : c.toNat < 0xD800 ∨ (0xE000 ≤ c.toNat ∧ c.toNat < 0x110000) := c.valid
  by_cases hv1 : c.toNat < 0x80
  · have he : utf8Encode c = [c.toNat] := by rw [utf8Encode, if_pos hv1]
    rw [he, List.singleton_append, lossy_step1 _ _ hv1, Char.ofNat_toNat]
  · by_cases hv2 : c.toNat < 0x800
    · have he : utf8Encode c = [0xC0 + c.toNat / 64, 0x80 + c.toNat % 64] := by
        rw [utf8Encode, if_neg hv1, if_pos hv2]
      rw [he]
      simp only [List.cons_append, List.nil_append]
      rw [lossy_step2 _ _ _ (by omega) (by omega) (by omega) (by omega)]
      rw [show (0xC0 + c.toNat / 64 - 0xC0) * 64 + (0x80 + c.toNat % 64 - 0x80) = c.toNat
        from by omega, Char.ofNat_toNat]
    · by_cases hv3 : c.toNat < 0x10000
      · have he : utf8Encode c =
            [0xE0 + c.toNat / 4096, 0x80 + c.toNat / 64 % 64, 0x80 + c.toNat % 64] := by
          rw [utf8Encode, if_neg hv1, if_neg hv2, if_pos hv3]
        have hlo : c3lo (0xE0 + c.toNat / 4096) ≤ 0x80 + c.toNat / 64 % 64 := by
          unfold c3lo
          by_cases hq : 0xE0 + c.toNat / 4096 = 0xE0
          · rw [if_pos hq]; omega
          · rw [if_neg hq]; omega
        have hhi : 0x80 + c.toNat / 64 % 64 ≤ c3hi (0xE0 + c.toNat / 4096) := by
          unfold c3hi
          by_cases hq : 0xE0 + c.toNat / 4096 = 0xED
          · rw [if_pos hq]; omega
          · rw [if_neg hq]; omega
        rw [he]
        simp only [List.cons_append, List.nil_append]
        rw [lossy_step3 _ _ _ _ (by omega) (by omega) hlo hhi (by omega) (by omega)]
        rw [show (0xE0 + c.toNat / 4096 - 0xE0) * 4096 + (0x80 + c.toNat / 64 % 64 - 0x80) * 64 +
            (0x80 + c.toNat % 64 - 0x80) = c.toNat from by omega, Char.ofNat_toNat]
      · have he : utf8Encode c =
            [0xF0 + c.toNat / 262144, 0x80 + c.toNat / 4096 % 64, 0x80 + c.toNat / 64 % 64,
              0x80 + c.toNat % 64] := by
          rw [utf8Encode, if_neg hv1, if_neg hv2, if_neg hv3]
        have hlo : c4lo (0xF0 + c.toNat / 262144) ≤ 0x80 + c.toNat / 4096 % 64 := by
          unfold c4lo
          by_cases hq : 0xF0 + c.toNat / 262144 = 0xF0
          · rw [if_pos hq]; omega
          · rw [if_neg hq]; omega
        have hhi : 0x80 + c.toNat / 4096 % 64 ≤ c4hi (0xF0 + c.toNat / 262144) := by
          unfold c4hi
          by_cases hq : 0xF0 + c.toNat / 262144 = 0xF4
          · rw [if_pos hq]; omega
          · rw [if_neg hq]; omega
        rw [he]
        simp only [List.cons_append, List.nil_append]
        rw [lossy_step4 _ _ _ _ _ (by omega) (by omega) hlo hhi (by omega) (by omega)
          (by omega) (by omega)]
        rw [show (0xF0 + c.toNat / 262144 - 0xF0) * 262144 + (0x80 + c.toNat / 4096 % 64 - 0x80) * 4096 +
            (0x80 + c.toNat / 64 % 64 - 0x80) * 64 + (0x80 + c.toNat % 64 - 0x80) = c.toNat
          from by omega, Char.ofNat_toNat]

theorem utf8Lossy_encodeList (cs : List Char) : utf8Lossy (utf8EncodeList cs) = cs := by
  induction cs with
  | nil => rfl
  | cons c cs ih =>
      show utf8Lossy (utf8Encode c ++ utf8EncodeList cs) = c :: cs
      rw [utf8Lossy_encode_cons, ih]


/-- C7: when the wasmtime execution step succeeds, the captured standard
output bytes are decoded with the total lossy UTF-8 decoding and `run` never
turns decoding into an error: a valid UTF-8 capture is returned unmodified,
and an invalid byte is replaced by U+FFFD rather than failing. -/
theorem run_lossy_decode (exec : ExecFn) (wat bytes : List Nat)
    (h : exec wat = .ok bytes) :
    run exec wat = .ok (utf8Lossy bytes) ∧
    (∀ cs : List Char, bytes = utf8EncodeList cs → run exec wat = .ok cs) ∧
    (∀ b : Nat, ∀ cs : List Char, 0xF5 ≤ b →
        utf8Lossy (b :: utf8EncodeList cs) = uFFFD :: cs) := by
  refine ⟨by simp [run, h], ?_, ?_⟩
  · rintro cs rfl
    simp [run, h, utf8Lossy_encodeList]
  · intro b cs hb
    rw [lossy_stepBad b _ hb, utf8Lossy_encodeList]

/-- A concrete wasmtime oracle capturing the bytes of `hi`. -/
def oExec : ExecFn := fun _ => .ok [0x68, 0x69]

/-- Witness for C7 at a concrete execution. -/
theorem run_lossy_decode_witness : run oExec [] = .ok ("hi".toList) :=
  (run_lossy_decode oExec [] [0x68, 0x69] rfl).2.1 ("hi".toList) (by decide)

end Flint
